import Mathlib

/-!
Shallow embedding of the yoom comments service (realtime fanout plus
buffered persistence pipeline) and its persistence workers, with theorems
checking the natural-language specification against the code.

Embedded source files:
* comments-service src index.ts — HTTP ingestion, socket ingestion,
  room fanout, connection registry, hot cache read and write.
* comments-service src worker.ts — the Kafka batch consumer (eachBatch).
* the redis-queue worker (processBatch) with its dead-letter queue.

Modelling conventions: machine strings stay Lean String values; the
sample-rate arithmetic and the random draw are rationals; database id
generation (prisma generates a fresh id per inserted row because the
insert data carries no id field) is modelled by a dedicated constructor
applied to a per-store counter, so that a freshly minted id is provably
distinct from any ingestion-time uuid.
-/

namespace Yoom

/-- An id for a stored comment row: either an ingestion-time uuid that was
explicitly supplied, or an id freshly generated by the database client at
insert time (prisma default, since the insert data has no id field). -/
inductive CommentId where
  | ofEnv (u : String)
  | ofDb (n : Nat)
deriving DecidableEq, Repr

/-- The normalized record the workers hand to the bulk insert: exactly the
three fields both workers copy out of a parsed queue message
(videoId, userId, content) — the message id is not among them. -/
structure NormComment where
  videoId : String
  userId : String
  content : String
deriving DecidableEq, Repr

/-- A row of the primary-store Comment table (id primary key, videoId,
userId, content; createdAt omitted as it never informs a claim). -/
structure Row where
  id : CommentId
  videoId : String
  userId : String
  content : String
deriving DecidableEq, Repr

/-- The primary store: the Comment table plus the id-generation counter of
the database client. -/
structure Store where
  rows : List Row
  nextId : Nat
deriving DecidableEq, Repr

/-- Insert one normalized record: the client mints a fresh id (the insert
data has no id field); with skipDuplicates the row is dropped when the id
collides with an existing primary key, and inserted otherwise. -/
def insertOne (s : Store) (c : NormComment) : Store :=
  let newId := CommentId.ofDb s.nextId
  if s.rows.any (fun r => r.id = newId) then
    { s with nextId := s.nextId + 1 }
  else
    { rows := s.rows ++ [{ id := newId, videoId := c.videoId,
                           userId := c.userId, content := c.content }],
      nextId := s.nextId + 1 }

/-- prisma createMany with skipDuplicates over a list of normalized
records. -/
def createMany (data : List NormComment) (s : Store) : Store :=
  data.foldl insertOne s

/-- The payload of one queue entry: either an unparseable blob or a parsed
object with the fields the producer serializes (the temp object). -/
inductive QVal where
  | malformed (raw : String)
  | obj (id videoId userId content : String)
deriving DecidableEq, Repr

/-- The shape check both workers run on a parsed message: videoId, userId
and content must be truthy (nonempty); on success the worker keeps only
those three fields, dropping the message id. -/
def parseVal : QVal → Option NormComment
  | QVal.malformed _ => none
  | QVal.obj _ videoId userId content =>
      if videoId ≠ "" ∧ userId ≠ "" ∧ content ≠ "" then
        some { videoId := videoId, userId := userId, content := content }
      else
        none

/-- A Kafka message: its offset and its value. -/
structure KMsg where
  offset : Nat
  value : QVal
deriving DecidableEq, Repr

/-- Observable events of one eachBatch run of the Kafka worker, in
execution order: per-message offset resolution (the acknowledgment), then
the bulk insert attempt (which succeeds or fails as a whole). -/
inductive KEv where
  | ack (offset : Nat)
  | insertOk (data : List NormComment)
  | insertFail (data : List NormComment)
deriving DecidableEq, Repr

/-- State of the Kafka worker: the primary store and the offsets resolved
so far.  The Kafka worker has no dead-letter destination: on parse or
validation failure it only logs, and on insert failure it only logs. -/
structure KState where
  store : Store
  acked : List Nat
deriving DecidableEq, Repr

/-- One eachBatch run of the Kafka worker (worker.ts): walk the batch,
collecting valid normalized records and resolving every offset as it goes;
afterwards, bulk-insert the collected records if any (when the store is
up), or log and drop them (when it is down). -/
def eachBatch (storeUp : Bool) (batch : List KMsg) (st : KState) : KState × List KEv :=
  let validComments := batch.filterMap (fun m => parseVal m.value)
  let acks := batch.map (fun m => KEv.ack m.offset)
  let st1 : KState := { st with acked := st.acked ++ batch.map (·.offset) }
  if validComments.isEmpty then
    (st1, acks)
  else if storeUp then
    ({ st1 with store := createMany validComments st1.store },
     acks ++ [KEv.insertOk validComments])
  else
    (st1, acks ++ [KEv.insertFail validComments])

/-- A dead-letter entry of the redis worker: invalid messages are pushed
verbatim (raw), while valid messages of a failed batch are re-serialized
from their normalized form (norm) before the push. -/
inductive DEntry where
  | raw (m : QVal)
  | norm (c : NormComment)
deriving DecidableEq, Repr

/-- State of the redis-queue worker: the pending queue list, the
dead-letter list and the primary store. -/
structure RState where
  queue : List QVal
  dlq : List DEntry
  store : Store
deriving DecidableEq, Repr

/-- Batch cap of the redis worker (BATCH_SIZE). -/
def BATCH_SIZE : Nat := 100

/-- One processBatch run of the redis worker: lrange the first BATCH_SIZE
entries, return if none, ltrim them off the queue, split them into valid
normalized records and invalid originals, bulk-insert the valid ones
(diverting the whole batch to the dead-letter queue and returning early
when the insert fails), then divert the invalid ones to the dead-letter
queue.  The surrounding try/catch means the function is total and the
polling loop always continues. -/
def processBatch (storeUp : Bool) (st : RState) : RState :=
  let messages := st.queue.take BATCH_SIZE
  if messages.isEmpty then st
  else
    let queue1 := st.queue.drop messages.length
    let validComments := messages.filterMap parseVal
    let invalidMessages := messages.filter (fun m => (parseVal m).isNone)
    if validComments.isEmpty then
      { queue := queue1, dlq := st.dlq ++ invalidMessages.map DEntry.raw,
        store := st.store }
    else if storeUp then
      { queue := queue1, dlq := st.dlq ++ invalidMessages.map DEntry.raw,
        store := createMany validComments st.store }
    else
      { queue := queue1,
        dlq := st.dlq ++ validComments.map DEntry.norm
                      ++ invalidMessages.map DEntry.raw,
        store := st.store }

/-- The worker polling loop, run for a given number of iterations. -/
def runLoop (storeUp : Bool) : Nat → RState → RState
  | 0, st => st
  | n + 1, st => runLoop storeUp n (processBatch storeUp st)

/-- The image one queue message leaves in the dead-letter queue when its
whole batch is diverted there: invalid messages go verbatim, valid ones in
their normalized serialization. -/
def dlqImage (m : QVal) : DEntry :=
  match parseVal m with
  | some c => DEntry.norm c
  | none => DEntry.raw m

/-- Hot-cache list cap: ltrim key 0 499 keeps 500 entries. -/
def CACHE_CAP : Nat := 500

/-- One hot-cache write: lpush the new item at the head, then ltrim the
list to the cap. -/
def cacheWrite (item : α) (l : List α) : List α :=
  (item :: l).take CACHE_CAP

/-- The cache list obtained by applying a sequence of writes, oldest
first, to an initially empty room list. -/
def cacheOfWrites (ws : List α) : List α :=
  ws.foldl (fun l item => cacheWrite item l) []

/-- The recent-history read: lrange key 0 (limit - 1), i.e. take limit
from the newest-first list, then reverse to chronological order. -/
def readRecent (limit : Nat) (l : List α) : List α :=
  (l.take limit).reverse

/-- The sample-rate clamp: Math.min(Math.max(v, 0), 1). -/
def clampRate (x : ℚ) : ℚ :=
  min (max x 0) 1

/-- The persistence policy of the HTTP ingestion path: forced by the
caller, or mode all, or mode sample together with a random draw below the
sample rate. -/
def shouldPersist (mode : String) (force : Bool) (rate draw : ℚ) : Bool :=
  force || mode == "all" || (mode == "sample" && decide (draw < rate))

/-- The temporary canonical record both ingestion paths build first:
a fresh uuid, the submitted fields and the ingestion timestamp. -/
structure TempComment where
  id : String
  videoId : String
  userId : String
  content : String
  createdAt : String
  replyToId : Option String
  replyToUserId : Option String
deriving DecidableEq, Repr

/-- A broadcast payload item: the temp record, or (socket path when the
direct insert ran) the database row returned by prisma create, whose id
and timestamp are database-minted and which has no reply fields. -/
inductive BItem where
  | ofTemp (t : TempComment)
  | ofRow (r : Row)
deriving DecidableEq, Repr

/-- Observable events of one ingestion-path run, in execution order. -/
inductive Ev where
  | reject
  | enqueue (key : String) (t : TempComment)
  | enqueueFail (key : String)
  | publishRoom (room : String) (item : BItem)
  | publishUser (chan : String) (item : BItem)
  | respond (item : BItem)
  | cacheWriteEv (key : String) (item : BItem)
  | storeCreate (videoId userId content : String)
  | storeCreateFail (videoId userId content : String)
deriving DecidableEq, Repr

/-- An HTTP comment-creation request: body fields after JSON parsing,
the persist query flag, and the scope query parameter. -/
structure HttpReq where
  videoId : String
  userId : String
  content : String
  replyToId : Option String
  replyToUserId : Option String
  persistBody : Option Bool
  persistQuery : Bool
  scope : String
deriving DecidableEq, Repr

/-- The zod createSchema check: videoId and userId nonempty, content of
length between 1 and 2000. -/
def validReq (r : HttpReq) : Bool :=
  r.videoId ≠ "" && r.userId ≠ "" &&
  1 ≤ r.content.length && r.content.length ≤ 2000

/-- The caller-forced persistence override of the HTTP path: query
persist=1 or body field persist set to true. -/
def forcePersist (r : HttpReq) : Bool :=
  r.persistQuery || r.persistBody == some true

/-- The temp record the HTTP handler builds: a fresh uuid, the submitted
fields and the ingestion timestamp. -/
def tempOf (uuid now : String) (r : HttpReq) : TempComment :=
  { id := uuid, videoId := r.videoId, userId := r.userId,
    content := r.content, createdAt := now,
    replyToId := r.replyToId, replyToUserId := r.replyToUserId }

/-- The event trace of one HTTP POST on the comments route, in the order
the effects actually run: schema rejection; otherwise build temp; when the
policy selects persistence, await the queue enqueue (failures logged and
swallowed); then broadcast to the room channel and, when a reply target is
named, to that user channel; then respond with the temp record; the hot
cache write is deferred to the next tick, so it runs after the response. -/
def httpPost (mode : String) (rate draw : ℚ) (uuid now : String)
    (kafkaUp redisOn : Bool) (r : HttpReq) : List Ev :=
  if !validReq r then [Ev.reject]
  else
    let temp := tempOf uuid now r
    let item := BItem.ofTemp temp
    (if shouldPersist mode (forcePersist r) rate draw then
       [if kafkaUp then Ev.enqueue r.videoId temp else Ev.enqueueFail r.videoId]
     else []) ++
    [Ev.publishRoom r.videoId item] ++
    (match r.replyToUserId with
     | some u => [Ev.publishUser ("user:" ++ u) item]
     | none => []) ++
    [Ev.respond item] ++
    (if redisOn then
       [Ev.cacheWriteEv ("chat:" ++ r.scope ++ ":" ++ r.videoId) item]
     else [])

/-- JS String slice from the start: keep the first n characters of the
content (modelled on the code-point list of the string). -/
def sliceContent (s : String) (n : Nat) : String :=
  String.mk (s.data.take n)

/-- An inbound socket message after JSON parsing. -/
structure WsMsg where
  type : String
  videoId : String
  userId : String
  content : String
  replyToId : Option String
  replyToUserId : Option String
  scope : String
deriving DecidableEq, Repr

/-- The ad hoc shape check of the socket message handler: type equals
comment and videoId, userId, content all truthy. -/
def wsShapeOk (d : WsMsg) : Bool :=
  d.type == "comment" && d.videoId ≠ "" && d.userId ≠ "" && d.content ≠ ""

/-- The socket-path persistence decision: mode all, or mode sample with
the draw below the rate — no caller override exists on this path. -/
def wsPersistDecision (mode : String) (rate draw : ℚ) : Bool :=
  mode == "all" || (mode == "sample" && decide (draw < rate))

/-- The event trace of one socket comment message, in the order the
effects run: messages failing the shape check are silently dropped;
otherwise content is truncated to 2000 and temp is built; when the policy
selects persistence the handler awaits a direct prisma create (on failure
it logs and falls back to temp); it then broadcasts the resulting record,
optionally notifies the reply-target user channel, and defers the hot
cache write.  dbNextId stands for the fresh id the database client mints
for the created row (the insert data carries no id). -/
def wsMessage (mode : String) (rate draw : ℚ) (uuid now : String)
    (storeUp redisOn : Bool) (dbNextId : Nat)
    (d : WsMsg) : List Ev :=
  if !wsShapeOk d then []
  else
    let content := sliceContent d.content 2000
    let temp : TempComment :=
      { id := uuid, videoId := d.videoId, userId := d.userId,
        content := content, createdAt := now,
        replyToId := d.replyToId, replyToUserId := d.replyToUserId }
    let persist := wsPersistDecision mode rate draw
    let created : BItem :=
      if persist && storeUp then
        BItem.ofRow { id := CommentId.ofDb dbNextId, videoId := d.videoId,
                      userId := d.userId, content := content }
      else BItem.ofTemp temp
    (if persist then
       [if storeUp then Ev.storeCreate d.videoId d.userId content
        else Ev.storeCreateFail d.videoId d.userId content]
     else []) ++
    [Ev.publishRoom d.videoId created] ++
    (match d.replyToUserId with
     | some u => [Ev.publishUser ("user:" ++ u) created]
     | none => []) ++
    (if redisOn then
       [Ev.cacheWriteEv ("chat:" ++ d.scope ++ ":" ++ d.videoId) created]
     else [])

/-- State of the connection registry of one instance: the per-room
subscriber map, the registered local-bus delivery callbacks (channel and
connection), the channels subscribed on the redis subscriber, and the
connections that were closed by the handler. -/
structure ConnState where
  rooms : List (String × List Nat)
  handlers : List (String × Nat)
  redisSubs : List String
  closed : List Nat
deriving DecidableEq, Repr

/-- The registry at service start. -/
def initConnState : ConnState :=
  { rooms := [], handlers := [], redisSubs := [], closed := [] }

/-- Whether the subscriber map has an entry for the room. -/
def hasRoom (roomId : String) (rooms : List (String × List Nat)) : Bool :=
  rooms.any (fun p => p.1 = roomId)

/-- roomSubscribers.set(roomId, new Set()) when absent, then
get(roomId).add(ws). -/
def addConn (roomId : String) (connId : Nat) :
    List (String × List Nat) → List (String × List Nat)
  | [] => [(roomId, [connId])]
  | (r, conns) :: rest =>
      if r = roomId then (r, conns ++ [connId]) :: rest
      else (r, conns) :: addConn roomId connId rest

/-- ensureSubscribeRoom: subscribe the redis subscriber to the room
channel only when the subscriber map has no entry for the room (the redis
subscriber is assumed configured). -/
def ensureSubscribeRoom (roomId : String) (st : ConnState) : ConnState :=
  if hasRoom roomId st.rooms then st
  else { st with redisSubs := ("room:" ++ roomId) :: st.redisSubs }

/-- The connection handler: read roomId from the query string; when it is
missing or empty, close the socket and return; otherwise register the
connection in the subscriber map, call ensureSubscribeRoom, and register
the local delivery callback for the room channel. -/
def handleConnection (connId : Nat) (roomIdParam : Option String)
    (st : ConnState) : ConnState :=
  let roomId := roomIdParam.getD ""
  if roomId = "" then { st with closed := st.closed ++ [connId] }
  else
    let st1 := { st with rooms := addConn roomId connId st.rooms }
    let st2 := ensureSubscribeRoom roomId st1
    { st2 with handlers := st2.handlers ++ [("room:" ++ roomId, connId)] }

/-- Remove a connection from a room entry of the subscriber map; when the
set becomes empty, also remove the room entry and report it emptied. -/
def dropConn (roomId : String) (connId : Nat) :
    List (String × List Nat) → List (String × List Nat) × Bool
  | [] => ([], false)
  | (r, conns) :: rest =>
      if r = roomId then
        let conns1 := conns.erase connId
        if conns1.isEmpty then (rest, true)
        else ((r, conns1) :: rest, false)
      else
        let step := dropConn roomId connId rest
        ((r, conns) :: step.1, step.2)

/-- The close handler: deregister the local callback, remove the
connection from the room set, and when the set became empty unsubscribe
the room channel from the redis subscriber. -/
def handleClose (connId : Nat) (roomId : String) (st : ConnState) : ConnState :=
  let channel := "room:" ++ roomId
  let step := dropConn roomId connId st.rooms
  { st with
    handlers := st.handlers.eraseP (fun p => p.1 = channel ∧ p.2 = connId),
    rooms := step.1,
    redisSubs := if step.2 then st.redisSubs.erase channel else st.redisSubs }

/-- A registry event: a socket connection arriving, or one closing. -/
inductive RegStep where
  | connect (connId : Nat) (roomIdParam : Option String)
  | close (connId : Nat) (roomId : String)
deriving DecidableEq, Repr

/-- Run a sequence of registry events. -/
def runSteps (steps : List RegStep) (st : ConnState) : ConnState :=
  steps.foldl
    (fun s stp =>
      match stp with
      | RegStep.connect c p => handleConnection c p s
      | RegStep.close c r => handleClose c r s) st

/-- The connections a broadcast on a channel is delivered to: exactly the
connections whose local callback is registered for that channel. -/
def deliverTargets (channel : String) (st : ConnState) : List Nat :=
  (st.handlers.filter (fun p => p.1 = channel)).map (·.2)

/-! ## Hot-cache lemmas -/

lemma take_append_take (u v : List α) (n : Nat) :
    (u ++ v.take n).take n = (u ++ v).take n := by
  rw [List.take_append_eq_append_take, List.take_append_eq_append_take,
    List.take_take]
  have h : min (n - u.length) n = n - u.length :=
    Nat.min_eq_left (Nat.sub_le _ _)
  rw [h]

lemma cacheWrite_foldl (ws : List α) (l : List α) (h : l.length ≤ CACHE_CAP) :
    ws.foldl (fun acc item => cacheWrite item acc) l
      = (ws.reverse ++ l).take CACHE_CAP := by
  induction ws generalizing l with
  | nil => simp [List.take_of_length_le h]
  | cons a ws ih =>
      rw [List.foldl_cons,
        ih (cacheWrite a l) (by simp only [cacheWrite, List.length_take]; omega)]
      show (ws.reverse ++ (a :: l).take CACHE_CAP).take CACHE_CAP
        = ((a :: ws).reverse ++ l).take CACHE_CAP
      rw [take_append_take]
      simp [List.append_assoc]

lemma cacheOfWrites_eq (ws : List α) :
    cacheOfWrites ws = ws.reverse.take CACHE_CAP := by
  unfold cacheOfWrites
  rw [cacheWrite_foldl ws [] (by simp)]
  simp

/-- Claim C8: a room hot-cache list built by any number of writes (each a
head insert followed by a trim to the cap) never exceeds the cap, the
kept entries are exactly the most recent writes (the oldest are dropped),
and a recent-history read with any limit returns at most
min(limit, cap) entries — precisely the last min(limit, cap) writes in
chronological (oldest-first) order, i.e. a suffix of the write
sequence. -/
theorem hotCache_bounded_recent {α : Type} (ws : List α) (limit : Nat) :
    (cacheOfWrites ws).length ≤ CACHE_CAP ∧
    readRecent limit (cacheOfWrites ws)
      = ws.drop (ws.length - min limit CACHE_CAP) ∧
    (readRecent limit (cacheOfWrites ws)).length ≤ min limit CACHE_CAP := by
  have hc := cacheOfWrites_eq (α := α) ws
  have h2 : readRecent limit (cacheOfWrites ws)
      = ws.drop (ws.length - min limit CACHE_CAP) := by
    rw [hc]
    unfold readRecent
    rw [List.take_take, List.reverse_take]
    simp
  refine ⟨?_, h2, ?_⟩
  · rw [hc, List.length_take]
    omega
  · rw [h2, List.length_drop]
    omega

/-! ## Persistence-policy lemmas -/

/-- Claim C7: the persistence decision is true when the caller forces it,
true in mode all, equal to the sampling test (draw below rate) in mode
sample, and false in any other mode absent an override; the rate clamp
lands in the unit interval, a clamped rate of zero never persists absent
an override (for any draw of Math.random, which is nonnegative), and a
clamped rate of one always persists (any such draw is below one). -/
theorem shouldPersist_spec :
    (∀ mode : String, ∀ rate draw : ℚ, shouldPersist mode true rate draw = true) ∧
    (∀ force : Bool, ∀ rate draw : ℚ, shouldPersist "all" force rate draw = true) ∧
    (∀ rate draw : ℚ,
       shouldPersist "sample" false rate draw = decide (draw < rate)) ∧
    (∀ mode : String, ∀ rate draw : ℚ, mode ≠ "all" → mode ≠ "sample" →
       shouldPersist mode false rate draw = false) ∧
    (∀ x : ℚ, 0 ≤ clampRate x ∧ clampRate x ≤ 1) ∧
    (∀ x draw : ℚ, x ≤ 0 → 0 ≤ draw →
       shouldPersist "sample" false (clampRate x) draw = false) ∧
    (∀ x draw : ℚ, 1 ≤ x → draw < 1 →
       shouldPersist "sample" false (clampRate x) draw = true) := by
  have hsa : (("sample" : String) == "all") = false := by decide
  have hss : (("sample" : String) == "sample") = true := by decide
  refine ⟨?_, ?_, ?_, ?_, ?_, ?_, ?_⟩
  · intro mode rate draw; simp [shouldPersist]
  · intro force rate draw; simp [shouldPersist]
  · intro rate draw; simp [shouldPersist, hsa, hss]
  · intro mode rate draw h1 h2
    have b1 : (mode == "all") = false := by simpa using h1
    have b2 : (mode == "sample") = false := by simpa using h2
    simp [shouldPersist, b1, b2]
  · intro x
    exact ⟨le_min (le_max_right x 0) zero_le_one, min_le_right _ _⟩
  · intro x draw hx hd
    have hcl : clampRate x = 0 := by
      unfold clampRate
      rw [max_eq_right hx, min_eq_left (by norm_num : (0:ℚ) ≤ 1)]
    simp only [shouldPersist, hcl, hsa, hss, Bool.false_or, Bool.true_and]
    exact decide_eq_false (not_lt.mpr hd)
  · intro x draw hx hd
    have hcl : clampRate x = 1 := by
      unfold clampRate
      rw [max_eq_left (le_trans zero_le_one hx), min_eq_right hx]
    simp only [shouldPersist, hcl, hsa, hss, Bool.false_or, Bool.true_and]
    exact decide_eq_true hd

/-- Witness for claim C7 at concrete inputs: mode none without override
never persists; a clamped negative rate never persists; a clamped rate
above one always persists. -/
theorem shouldPersist_spec_witness :
    shouldPersist "none" false (3/4 : ℚ) (1/2 : ℚ) = false ∧
    shouldPersist "sample" false (clampRate (-1)) (0 : ℚ) = false ∧
    shouldPersist "sample" false (clampRate 2) (1/2 : ℚ) = true :=
  ⟨shouldPersist_spec.2.2.2.1 "none" (3/4) (1/2) (by decide) (by decide),
   shouldPersist_spec.2.2.2.2.2.1 (-1) 0 (by norm_num) (by norm_num),
   shouldPersist_spec.2.2.2.2.2.2 2 (1/2) (by norm_num) (by norm_num)⟩

/-! ## Connection-registry lemmas -/

lemma hasRoom_addConn (roomId : String) (connId : Nat)
    (rooms : List (String × List Nat)) :
    hasRoom roomId (addConn roomId connId rooms) = true := by
  induction rooms with
  | nil => simp [addConn, hasRoom]
  | cons p rest ih =>
      obtain ⟨r, conns⟩ := p
      by_cases h : r = roomId
      · simp [addConn, h, hasRoom]
      · simp only [hasRoom, List.any_cons] at ih ⊢
        simp [addConn, h, ih]

lemma redisSubs_handleConnection (c : Nat) (p : Option String) (st : ConnState) :
    (handleConnection c p st).redisSubs = st.redisSubs := by
  unfold handleConnection
  by_cases h : (p.getD "") = ""
  · simp [h]
  · simp [h, ensureSubscribeRoom, hasRoom_addConn]

lemma redisSubs_handleClose (c : Nat) (r : String) (st : ConnState)
    (h : st.redisSubs = []) : (handleClose c r st).redisSubs = [] := by
  unfold handleClose
  simp only [h]
  split <;> simp

lemma runSteps_redisSubs_nil :
    ∀ (steps : List RegStep) (st : ConnState),
      st.redisSubs = [] → (runSteps steps st).redisSubs = [] := by
  intro steps
  induction steps with
  | nil => intro st h; simpa [runSteps]
  | cons s rest ih =>
      intro st h
      show (runSteps rest _).redisSubs = []
      cases s with
      | connect c p =>
          exact ih _ (by rw [redisSubs_handleConnection]; exact h)
      | close c r =>
          exact ih _ (redisSubs_handleClose c r st h)

/-- Claim C4: the code never issues the distributed-channel subscription
at all.  The connection handler registers the connection in the
room-subscriber map before calling ensureSubscribeRoom, whose guard
(no map entry for the room) is therefore always false, so under every
sequence of connection and close events starting from the initial
registry the set of redis-subscribed channels stays empty — in
particular a room that gains its first subscriber has no
distributed-channel subscription in place, contrary to the claim and to
the stated intent of the code (subscribe once per room). -/
theorem distributed_subscribe_never_issued (steps : List RegStep) :
    (runSteps steps initConnState).redisSubs = [] :=
  runSteps_redisSubs_nil steps initConnState rfl

/-- Claim C10: a streaming connection whose URL carries no nonempty
roomId query parameter is closed immediately: the room-subscriber map,
the local delivery callbacks and the redis subscriptions are untouched,
the connection is recorded closed, and no broadcast on any channel is
ever delivered to it. -/
theorem no_room_connection_rejected (connId : Nat) (p : Option String)
    (st : ConnState) (hp : p = none ∨ p = some "")
    (hfresh : ∀ ch : String, (ch, connId) ∉ st.handlers) :
    (handleConnection connId p st).rooms = st.rooms ∧
    (handleConnection connId p st).handlers = st.handlers ∧
    (handleConnection connId p st).redisSubs = st.redisSubs ∧
    (handleConnection connId p st).closed = st.closed ++ [connId] ∧
    ∀ ch : String, connId ∉ deliverTargets ch (handleConnection connId p st) := by
  have hroom : p.getD "" = "" := by rcases hp with rfl | rfl <;> rfl
  unfold handleConnection
  simp only [hroom, if_pos rfl]
  refine ⟨rfl, rfl, rfl, rfl, ?_⟩
  intro ch hmem
  unfold deliverTargets at hmem
  obtain ⟨pr, hpr, hpr2⟩ := List.mem_map.mp hmem
  have hf := List.mem_filter.mp hpr
  have h1 : pr.1 = ch := by simpa using hf.2
  have : (ch, connId) ∈ st.handlers := by
    have : pr = (ch, connId) := Prod.ext h1 hpr2
    simpa [this] using hf.1
  exact hfresh ch this

/-- Witness for claim C10: a connection with no roomId parameter on a
fresh instance registers nothing, is closed, and receives no delivery on
a sample room channel. -/
theorem no_room_connection_rejected_witness :
    (handleConnection 5 none initConnState).handlers = [] ∧
    (handleConnection 5 none initConnState).closed = [5] ∧
    5 ∉ deliverTargets "room:v1" (handleConnection 5 none initConnState) := by
  have h := no_room_connection_rejected 5 none initConnState (Or.inl rfl)
    (fun ch hc => by simp [initConnState] at hc)
  refine ⟨by rw [h.2.1]; rfl, ?_, h.2.2.2.2 "room:v1"⟩
  rw [h.2.2.2.1]
  rfl

/-! ## Primary-store lemmas -/

/-- Store well-formedness: every database-minted row id is below the
id-generation counter, so the next minted id is fresh. -/
def StoreWF (s : Store) : Prop :=
  ∀ r ∈ s.rows, ∀ k, r.id = CommentId.ofDb k → k < s.nextId

lemma insertOne_eq_of_wf (s : Store) (c : NormComment) (h : StoreWF s) :
    insertOne s c =
      { rows := s.rows ++ [{ id := CommentId.ofDb s.nextId, videoId := c.videoId,
                             userId := c.userId, content := c.content }],
        nextId := s.nextId + 1 } := by
  unfold insertOne
  have hany : s.rows.any (fun r => r.id = CommentId.ofDb s.nextId) = false := by
    simp only [List.any_eq_false, decide_eq_true_eq]
    intro r hr heq
    exact absurd (h r hr s.nextId heq) (lt_irrefl _)
  simp [hany]

lemma StoreWF_insertOne (s : Store) (c : NormComment) (h : StoreWF s) :
    StoreWF (insertOne s c) := by
  rw [insertOne_eq_of_wf s c h]
  intro r hr k hk
  rcases List.mem_append.mp hr with h1 | h1
  · exact Nat.lt_succ_of_lt (h r h1 k hk)
  · have h2 : r = Row.mk (CommentId.ofDb s.nextId) c.videoId c.userId c.content := by
      simpa using h1
    rw [h2] at hk
    simp only at hk
    have := CommentId.ofDb.inj hk.symm
    show k < s.nextId + 1
    omega

/-- The rows minted for a list of normalized records starting at a given
counter value. -/
def mkRows : Nat → List NormComment → List Row
  | _, [] => []
  | n, c :: cs =>
      { id := CommentId.ofDb n, videoId := c.videoId,
        userId := c.userId, content := c.content } :: mkRows (n + 1) cs

lemma createMany_rows_of_wf (data : List NormComment) (s : Store)
    (h : StoreWF s) :
    (createMany data s).rows = s.rows ++ mkRows s.nextId data := by
  induction data generalizing s with
  | nil => simp [createMany, mkRows]
  | cons c cs ih =>
      show (createMany cs (insertOne s c)).rows = _
      rw [ih (insertOne s c) (StoreWF_insertOne s c h),
        insertOne_eq_of_wf s c h]
      simp [mkRows]

lemma mem_mkRows (data : List NormComment) (c : NormComment) (n : Nat)
    (h : c ∈ data) :
    ∃ r ∈ mkRows n data, r.videoId = c.videoId ∧ r.userId = c.userId ∧
      r.content = c.content := by
  induction data generalizing n with
  | nil => exact absurd h (List.not_mem_nil c)
  | cons d ds ih =>
      rcases List.mem_cons.mp h with rfl | h2
      · exact ⟨_, List.mem_cons_self _ _, rfl, rfl, rfl⟩
      · obtain ⟨r, hr, hprop⟩ := ih (n + 1) h2
        exact ⟨r, List.mem_cons_of_mem _ hr, hprop⟩

/-! ## Redis-queue worker lemmas -/

lemma filterMap_filter_isNone_length (l : List QVal) :
    (l.filterMap parseVal).length
      + (l.filter (fun m => (parseVal m).isNone)).length = l.length := by
  induction l with
  | nil => simp
  | cons m l ih =>
      cases h : parseVal m <;>
        simp [List.filterMap_cons, h, List.filter_cons] <;> omega

lemma drop_take_batch (q : List QVal) :
    q.drop (q.take BATCH_SIZE).length = q.drop BATCH_SIZE := by
  rw [List.length_take]
  by_cases h : q.length ≤ BATCH_SIZE
  · rw [Nat.min_eq_right h, List.drop_length q,
      List.drop_eq_nil_iff.mpr h]
  · rw [Nat.min_eq_left (le_of_lt (lt_of_not_le h))]

lemma processBatch_queue (u : Bool) (st : RState) :
    (processBatch u st).queue = st.queue.drop BATCH_SIZE := by
  unfold processBatch
  by_cases hq : (st.queue.take BATCH_SIZE).isEmpty = true
  · have hnil : st.queue.take BATCH_SIZE = [] := List.isEmpty_iff.mp hq
    have : st.queue = [] := by
      cases hqq : st.queue with
      | nil => rfl
      | cons a t => rw [hqq] at hnil; simp [BATCH_SIZE] at hnil
    simp [hq, this]
  · simp only [hq, if_false, Bool.false_eq_true]
    split
    · exact drop_take_batch st.queue
    · split
      · exact drop_take_batch st.queue
      · exact drop_take_batch st.queue

lemma processBatch_false_store (st : RState) :
    (processBatch false st).store = st.store := by
  unfold processBatch
  by_cases hq : (st.queue.take BATCH_SIZE).isEmpty = true
  · simp [hq]
  · simp only [hq, if_false, Bool.false_eq_true]
    split <;> simp

lemma processBatch_dlq_mono (u : Bool) (st : RState) (d : DEntry)
    (h : d ∈ st.dlq) : d ∈ (processBatch u st).dlq := by
  unfold processBatch
  by_cases hq : (st.queue.take BATCH_SIZE).isEmpty = true
  · simpa [hq]
  · simp only [hq, if_false, Bool.false_eq_true]
    split
    · exact List.mem_append_left _ h
    · split
      · exact List.mem_append_left _ h
      · exact List.mem_append_left _ (List.mem_append_left _ h)

lemma mem_dlq_of_mem_batch (st : RState) (m : QVal)
    (hm : m ∈ st.queue.take BATCH_SIZE) :
    dlqImage m ∈ (processBatch false st).dlq := by
  have hne : ¬ ((st.queue.take BATCH_SIZE).isEmpty = true) := by
    rw [List.isEmpty_iff]
    exact List.ne_nil_of_mem hm
  unfold processBatch
  simp only [hne, if_false, Bool.false_eq_true]
  cases hpm : parseVal m with
  | some c =>
      have hc : c ∈ (st.queue.take BATCH_SIZE).filterMap parseVal :=
        List.mem_filterMap.mpr ⟨m, hm, hpm⟩
      have hvne : ¬ (((st.queue.take BATCH_SIZE).filterMap parseVal).isEmpty = true) := by
        rw [List.isEmpty_iff]
        exact List.ne_nil_of_mem hc
      simp only [hvne, if_false, Bool.false_eq_true]
      have himg : dlqImage m = DEntry.norm c := by simp [dlqImage, hpm]
      rw [himg]
      exact List.mem_append_left _
        (List.mem_append_right _ (List.mem_map_of_mem _ hc))
  | none =>
      have hinv : m ∈ (st.queue.take BATCH_SIZE).filter
          (fun m => (parseVal m).isNone) :=
        List.mem_filter.mpr ⟨hm, by simp [hpm]⟩
      have himg : dlqImage m = DEntry.raw m := by simp [dlqImage, hpm]
      rw [himg]
      split
      · exact List.mem_append_right _ (List.mem_map_of_mem _ hinv)
      · exact List.mem_append_right _ (List.mem_map_of_mem _ hinv)

lemma processBatch_false_dlq_length (st : RState) :
    (processBatch false st).dlq.length
      = st.dlq.length + (st.queue.take BATCH_SIZE).length := by
  have hlen := filterMap_filter_isNone_length (st.queue.take BATCH_SIZE)
  unfold processBatch
  by_cases hq : (st.queue.take BATCH_SIZE).isEmpty = true
  · have hnil : st.queue.take BATCH_SIZE = [] := List.isEmpty_iff.mp hq
    simp [hq, hnil]
  · simp only [hq, if_false, Bool.false_eq_true]
    split
    · rename_i hv
      have hvnil : (st.queue.take BATCH_SIZE).filterMap parseVal = [] :=
        List.isEmpty_iff.mp hv
      rw [hvnil] at hlen
      simp only [List.length_nil] at hlen
      show (st.dlq ++ _).length = _
      rw [List.length_append, List.length_map]
      omega
    · show (st.dlq ++ _ ++ _).length = _
      rw [List.length_append, List.length_append, List.length_map,
        List.length_map]
      omega

/-- Claim C2 counterexample: the Kafka consumer — the one the producer
actually feeds — has no dead-letter destination at all: on a one-message
batch with the storage down, the complete run consists of resolving the
offset (the acknowledgment) and the failed insert attempt; the final
state stores nothing and records nothing beyond the acknowledgment, so
the entry of the failed batch is not written to any dead-letter
destination, refuting the claim as stated for this consumer. -/
theorem kafka_failed_insert_not_dead_lettered_cex :
    (eachBatch false [⟨0, QVal.obj "u-1" "v1" "a" "hi"⟩] ⟨⟨[], 0⟩, []⟩)
      = (⟨⟨[], 0⟩, [0]⟩,
         [KEv.ack 0, KEv.insertFail [⟨"v1", "a", "hi"⟩]]) := by
  decide

/-- Claim C2 amended: when the bulk insert fails (storage down), the
redis-queue consumer diverts every entry of the fetched batch — the
individually valid ones in their normalized serialization and the
invalid ones verbatim — to the dead-letter queue, stores nothing,
advances past the batch, and (being a total function whose errors are
caught) proceeds to the next batch: after two polling iterations with
storage down, the entries of both batches are all in the dead-letter
queue.  The Kafka consumer, by contrast, only logs a failed bulk
insert: with the storage down it stores nothing for any batch (and, as
it has no dead-letter destination, dead-letters nothing) while still
acknowledging every offset of the batch. -/
theorem failed_batch_diverted_to_dlq (st : RState) :
    (∀ m ∈ st.queue.take BATCH_SIZE, dlqImage m ∈ (processBatch false st).dlq) ∧
    (processBatch false st).store = st.store ∧
    (processBatch false st).queue = st.queue.drop BATCH_SIZE ∧
    (processBatch false st).dlq.length
      = st.dlq.length + (st.queue.take BATCH_SIZE).length ∧
    (∀ m ∈ st.queue.take (BATCH_SIZE + BATCH_SIZE),
       dlqImage m ∈ (runLoop false 2 st).dlq) ∧
    (∀ (batch : List KMsg) (kst : KState),
       (eachBatch false batch kst).1.store = kst.store ∧
       (eachBatch false batch kst).1.acked
         = kst.acked ++ batch.map (·.offset)) := by
  refine ⟨fun m hm => mem_dlq_of_mem_batch st m hm,
    processBatch_false_store st, processBatch_queue false st,
    processBatch_false_dlq_length st, ?_, ?_⟩
  case refine_2 =>
    intro batch kst
    unfold eachBatch
    by_cases hv : (batch.filterMap (fun m => parseVal m.value)).isEmpty = true
    · simp [hv]
    · simp [hv]
  intro m hm
  have hrun : runLoop false 2 st = processBatch false (processBatch false st) := rfl
  rw [List.take_add] at hm
  rcases List.mem_append.mp hm with h1 | h1
  · rw [hrun]
    exact processBatch_dlq_mono false _ _ (mem_dlq_of_mem_batch st m h1)
  · rw [hrun]
    have h2 : m ∈ (processBatch false st).queue.take BATCH_SIZE := by
      rw [processBatch_queue false st]
      exact h1
    exact mem_dlq_of_mem_batch (processBatch false st) m h2

/-- Witness for claim C2: a concrete two-entry queue (one valid, one
malformed) with storage down; both entries land in the dead-letter
queue, the store is untouched and the queue is drained. -/
theorem failed_batch_diverted_to_dlq_witness :
    dlqImage (QVal.obj "u-1" "v1" "a" "hi")
        ∈ (processBatch false
            { queue := [QVal.obj "u-1" "v1" "a" "hi", QVal.malformed "junk"],
              dlq := [], store := { rows := [], nextId := 0 } }).dlq ∧
    dlqImage (QVal.malformed "junk")
        ∈ (processBatch false
            { queue := [QVal.obj "u-1" "v1" "a" "hi", QVal.malformed "junk"],
              dlq := [], store := { rows := [], nextId := 0 } }).dlq ∧
    (processBatch false
        { queue := [QVal.obj "u-1" "v1" "a" "hi", QVal.malformed "junk"],
          dlq := [], store := { rows := [], nextId := 0 } }).store
      = { rows := [], nextId := 0 } := by
  refine ⟨?_, ?_, ?_⟩
  · exact (failed_batch_diverted_to_dlq _).1 _ (by decide)
  · exact (failed_batch_diverted_to_dlq _).1 _ (by decide)
  · exact (failed_batch_diverted_to_dlq _).2.1

/-! ## Kafka-worker event predicates -/

/-- Whether a Kafka-worker event is an offset resolution
(acknowledgment). -/
def isAckEv : KEv → Bool
  | KEv.ack _ => true
  | _ => false

/-- Whether a Kafka-worker event is a completed disposition: for this
worker the only disposition is a successful bulk insert (it has no
dead-letter destination). -/
def isInsertOkEv : KEv → Bool
  | KEv.insertOk _ => true
  | _ => false

/-- Acknowledgments happen only after a disposition has completed: every
acknowledgment event is strictly preceded by every disposition event of
the run. -/
def ackOnlyAfterDisposition (tr : List KEv) : Prop :=
  ∀ i j : Nat, (tr[i]?.any isAckEv) = true → (tr[j]?.any isInsertOkEv) = true →
    j < i

set_option maxRecDepth 4096 in
/-- Claim C1: delivering the same queue entry (same comment id u-1)
twice to the Kafka consumer yields two stored rows, not one.  The
consumer copies only videoId, userId and content out of the message —
dropping the id the producer marked as the idempotency key — so the
store mints a fresh id per row and skipDuplicates never fires; the
claimed replay no-op does not happen. -/
theorem redelivery_creates_second_row :
    ((eachBatch true [⟨0, QVal.obj "u-1" "v1" "a" "hi"⟩]
        ((eachBatch true [⟨0, QVal.obj "u-1" "v1" "a" "hi"⟩]
            ⟨⟨[], 0⟩, []⟩).1)).1).store.rows.length = 2 ∧
    ((eachBatch true [⟨0, QVal.obj "u-1" "v1" "a" "hi"⟩]
        ((eachBatch true [⟨0, QVal.obj "u-1" "v1" "a" "hi"⟩]
            ⟨⟨[], 0⟩, []⟩).1)).1).store.rows.map Row.id
      = [CommentId.ofDb 0, CommentId.ofDb 1] ∧
    CommentId.ofEnv "u-1"
      ∉ ((eachBatch true [⟨0, QVal.obj "u-1" "v1" "a" "hi"⟩]
            ((eachBatch true [⟨0, QVal.obj "u-1" "v1" "a" "hi"⟩]
                ⟨⟨[], 0⟩, []⟩).1)).1).store.rows.map Row.id := by
  decide

/-- Claim C3 counterexample: in the Kafka consumer the offset of a
message is resolved (the acknowledgment) before the batch insert runs,
so acknowledgment does not happen only after the disposition is final:
on a one-message batch the trace is the acknowledgment at index 0
followed by the successful insert at index 1. -/
theorem ack_precedes_disposition_cex :
    ¬ ackOnlyAfterDisposition
        ((eachBatch true [⟨0, QVal.obj "u-1" "v1" "a" "hi"⟩]
            ⟨⟨[], 0⟩, []⟩).2) := by
  intro h
  exact absurd (h 0 1 (by decide) (by decide)) (by decide)

set_option maxRecDepth 4096 in
/-- Claim C6: persistence does mint a second id for the same logical
comment.  The consumer normalization is independent of the envelope id
(two envelopes differing only in id normalize identically), the row the
consumer stores carries a database-minted id distinct from the ingestion
uuid, and on the socket path with persistence on, the broadcast record
is the database row, whose id is likewise database-minted rather than
the ingestion-time uuid. -/
theorem persistence_mints_new_id :
    parseVal (QVal.obj "u-1" "v1" "a" "hi")
      = parseVal (QVal.obj "u-2" "v1" "a" "hi") ∧
    ((eachBatch true [⟨0, QVal.obj "u-1" "v1" "a" "hi"⟩]
        ⟨⟨[], 0⟩, []⟩).1).store.rows.map Row.id = [CommentId.ofDb 0] ∧
    CommentId.ofDb 0 ≠ CommentId.ofEnv "u-1" ∧
    wsMessage "all" 0 0 "u-1" "t0" true false 7
        ⟨"comment", "v1", "a", "hi", none, none, "live"⟩
      = [Ev.storeCreate "v1" "a" "hi",
         Ev.publishRoom "v1" (BItem.ofRow ⟨CommentId.ofDb 7, "v1", "a", "hi"⟩)] :=
  ⟨by decide, by decide, by decide, by rfl⟩

/-! ## Redis-worker disposition completeness (amended claim C3) -/

lemma processBatch_true_store (st : RState)
    (hv : (st.queue.take BATCH_SIZE).filterMap parseVal ≠ []) :
    (processBatch true st).store
      = createMany ((st.queue.take BATCH_SIZE).filterMap parseVal) st.store := by
  have hne : ¬ ((st.queue.take BATCH_SIZE).isEmpty = true) := by
    rw [List.isEmpty_iff]
    intro hnil
    rw [hnil] at hv
    simp at hv
  have hvne : ¬ (((st.queue.take BATCH_SIZE).filterMap parseVal).isEmpty = true) := by
    rw [List.isEmpty_iff]
    exact hv
  unfold processBatch
  simp [hne, hvne]

lemma mem_dlq_invalid (u : Bool) (st : RState) (m : QVal)
    (hm : m ∈ st.queue.take BATCH_SIZE) (hpm : parseVal m = none) :
    DEntry.raw m ∈ (processBatch u st).dlq := by
  have hne : ¬ ((st.queue.take BATCH_SIZE).isEmpty = true) := by
    rw [List.isEmpty_iff]
    exact List.ne_nil_of_mem hm
  have hinv : m ∈ (st.queue.take BATCH_SIZE).filter
      (fun m => (parseVal m).isNone) :=
    List.mem_filter.mpr ⟨hm, by simp [hpm]⟩
  unfold processBatch
  simp only [hne, if_false, Bool.false_eq_true]
  split
  · exact List.mem_append_right _ (List.mem_map_of_mem _ hinv)
  · split
    · exact List.mem_append_right _ (List.mem_map_of_mem _ hinv)
    · exact List.mem_append_right _ (List.mem_map_of_mem _ hinv)

/-- Claim C3 amended: acknowledgment (queue trim / offset resolve)
happens before the batch disposition, not after it; what the redis-queue
consumer does guarantee is that every entry it removed from the queue
reaches a final disposition by the end of the same batch cycle — a valid
entry is either present in the primary store (insert succeeded) or in
the dead-letter queue (insert failed), and an invalid entry is in the
dead-letter queue. -/
theorem removed_entries_get_disposition (storeUp : Bool) (st : RState)
    (hwf : StoreWF st.store) :
    ∀ m ∈ st.queue.take BATCH_SIZE,
      (∃ c, parseVal m = some c ∧
         ((∃ r ∈ (processBatch storeUp st).store.rows,
             r.videoId = c.videoId ∧ r.userId = c.userId ∧
               r.content = c.content) ∨
          DEntry.norm c ∈ (processBatch storeUp st).dlq)) ∨
      (parseVal m = none ∧
         DEntry.raw m ∈ (processBatch storeUp st).dlq) := by
  intro m hm
  cases hpm : parseVal m with
  | some c =>
      refine Or.inl ⟨c, rfl, ?_⟩
      have hc : c ∈ (st.queue.take BATCH_SIZE).filterMap parseVal :=
        List.mem_filterMap.mpr ⟨m, hm, hpm⟩
      cases storeUp with
      | false =>
          refine Or.inr ?_
          have := mem_dlq_of_mem_batch st m hm
          rwa [show dlqImage m = DEntry.norm c by simp [dlqImage, hpm]] at this
      | true =>
          refine Or.inl ?_
          rw [processBatch_true_store st (List.ne_nil_of_mem hc)]
          obtain ⟨r, hr, hprop⟩ :=
            mem_mkRows _ c st.store.nextId hc
          refine ⟨r, ?_, hprop⟩
          rw [createMany_rows_of_wf _ _ hwf]
          exact List.mem_append_right _ hr
  | none =>
      exact Or.inr ⟨rfl, mem_dlq_invalid storeUp st m hm hpm⟩

/-- Witness for the amended claim C3 at a concrete input: with storage
down, a single valid removed entry ends up (normalized) in the
dead-letter queue. -/
theorem removed_entries_get_disposition_witness :
    (∃ c, parseVal (QVal.obj "u-1" "v1" "a" "hi") = some c ∧
       ((∃ r ∈ (processBatch false
             ⟨[QVal.obj "u-1" "v1" "a" "hi"], [], ⟨[], 0⟩⟩).store.rows,
           r.videoId = c.videoId ∧ r.userId = c.userId ∧
             r.content = c.content) ∨
        DEntry.norm c ∈ (processBatch false
             ⟨[QVal.obj "u-1" "v1" "a" "hi"], [], ⟨[], 0⟩⟩).dlq)) ∨
    (parseVal (QVal.obj "u-1" "v1" "a" "hi") = none ∧
       DEntry.raw (QVal.obj "u-1" "v1" "a" "hi")
         ∈ (processBatch false
             ⟨[QVal.obj "u-1" "v1" "a" "hi"], [], ⟨[], 0⟩⟩).dlq) :=
  removed_entries_get_disposition false
    ⟨[QVal.obj "u-1" "v1" "a" "hi"], [], ⟨[], 0⟩⟩
    (fun r hr => absurd hr (List.not_mem_nil r))
    (QVal.obj "u-1" "v1" "a" "hi") (by decide)

/-! ## Ingestion-path event predicates and ordering -/

/-- Whether an ingestion event is a persistence attempt: a queue enqueue
(successful or failed) or a direct primary-store create (successful or
failed). -/
def isPersistAttemptEv : Ev → Bool
  | Ev.enqueue _ _ => true
  | Ev.enqueueFail _ => true
  | Ev.storeCreate _ _ _ => true
  | Ev.storeCreateFail _ _ _ => true
  | _ => false

/-- Whether an ingestion event is a broadcast (room channel or user
channel publish). -/
def isBroadcastEv : Ev → Bool
  | Ev.publishRoom _ _ => true
  | Ev.publishUser _ _ => true
  | _ => false

/-- Whether an ingestion event is the HTTP response. -/
def isRespondEv : Ev → Bool
  | Ev.respond _ => true
  | _ => false

/-- Whether an ingestion event is a direct primary-store write
attempt. -/
def isStoreWriteEv : Ev → Bool
  | Ev.storeCreate _ _ _ => true
  | Ev.storeCreateFail _ _ _ => true
  | _ => false

/-- Whether an ingestion event is a queue enqueue attempt. -/
def isEnqueueEv : Ev → Bool
  | Ev.enqueue _ _ => true
  | Ev.enqueueFail _ => true
  | _ => false

/-- Every event of the trace matching p occurs strictly before every
event matching q. -/
def eventsBefore (tr : List Ev) (p q : Ev → Bool) : Prop :=
  ∀ i j : Nat, (tr[i]?.any p) = true → (tr[j]?.any q) = true → i < j

lemma mem_of_any_getElem {l : List Ev} {p : Ev → Bool} {k : Nat}
    (h : (l[k]?.any p) = true) : ∃ e ∈ l, p e = true := by
  cases he : l[k]? with
  | none => rw [he] at h; exact absurd h (by simp)
  | some e =>
      rw [he] at h
      exact ⟨e, List.getElem?_mem he, by simpa using h⟩

lemma eventsBefore_split (tr1 tr2 : List Ev) (p q : Ev → Bool)
    (h1 : ∀ e ∈ tr2, p e = false) (h2 : ∀ e ∈ tr1, q e = false) :
    eventsBefore (tr1 ++ tr2) p q := by
  intro i j hp hq
  have hi : i < tr1.length := by
    by_contra hge
    push_neg at hge
    rw [List.getElem?_append_right hge] at hp
    obtain ⟨e, hm, hpe⟩ := mem_of_any_getElem hp
    rw [h1 e hm] at hpe
    exact absurd hpe (by simp)
  have hj : tr1.length ≤ j := by
    by_contra hlt
    push_neg at hlt
    rw [List.getElem?_append_left hlt] at hq
    obtain ⟨e, hm, hqe⟩ := mem_of_any_getElem hq
    rw [h2 e hm] at hqe
    exact absurd hqe (by simp)
  omega

lemma eventsBefore_of_noP (tr : List Ev) (p q : Ev → Bool)
    (h : ∀ e ∈ tr, p e = false) : eventsBefore tr p q := by
  intro i j hp hq
  obtain ⟨e, hm, hpe⟩ := mem_of_any_getElem hp
  rw [h e hm] at hpe
  exact absurd hpe (by simp)

/-- Claim C5 counterexample: on the HTTP path with persistence selected
(here via the caller override persist=1), the queue enqueue is awaited
before the broadcast, so the broadcast does happen after the persistence
attempt: in the concrete trace the enqueue sits at index 0 and the room
broadcast at index 1, refuting broadcast-never-after-persistence. -/
theorem broadcast_after_enqueue_cex :
    ¬ (∀ i j : Nat,
        ((httpPost "none" 0 0 "u-1" "t0" true false
            ⟨"v1", "a", "hi", none, none, none, true, "live"⟩)[i]?.any
          isPersistAttemptEv) = true →
        ((httpPost "none" 0 0 "u-1" "t0" true false
            ⟨"v1", "a", "hi", none, none, none, true, "live"⟩)[j]?.any
          isBroadcastEv) = true → j ≤ i) := by
  intro h
  exact absurd (h 0 1 (by decide) (by decide)) (by decide)

lemma ws_persist_before_broadcast (mode : String) (rate draw : ℚ)
    (uuid now : String) (storeUp redisOn : Bool) (dbNextId : Nat)
    (d : WsMsg) :
    eventsBefore (wsMessage mode rate draw uuid now storeUp redisOn dbNextId d)
      isPersistAttemptEv isBroadcastEv := by
  by_cases hs : wsShapeOk d = true
  · obtain ⟨b, htr⟩ : ∃ b, wsMessage mode rate draw uuid now storeUp redisOn dbNextId d
        = (if wsPersistDecision mode rate draw then
             [if storeUp then
                Ev.storeCreate d.videoId d.userId (sliceContent d.content 2000)
              else
                Ev.storeCreateFail d.videoId d.userId (sliceContent d.content 2000)]
           else [])
          ++ ([Ev.publishRoom d.videoId b]
          ++ ((match d.replyToUserId with
               | some u => [Ev.publishUser ("user:" ++ u) b]
               | none => [])
          ++ (if redisOn then
                [Ev.cacheWriteEv ("chat:" ++ d.scope ++ ":" ++ d.videoId) b]
              else []))) := by
      refine ⟨if wsPersistDecision mode rate draw && storeUp then
          BItem.ofRow ⟨CommentId.ofDb dbNextId, d.videoId, d.userId,
            sliceContent d.content 2000⟩
        else BItem.ofTemp ⟨uuid, d.videoId, d.userId,
          sliceContent d.content 2000, now, d.replyToId, d.replyToUserId⟩, ?_⟩
      simp [wsMessage, hs, List.append_assoc]
    rw [htr]
    apply eventsBefore_split
    · intro e he
      simp only [List.mem_append, List.mem_singleton] at he
      rcases he with rfl | he | he
      · rfl
      · cases hru : d.replyToUserId with
        | none => rw [hru] at he; simp at he
        | some u => rw [hru] at he; simp at he; subst he; rfl
      · split at he
        · simp at he; subst he; rfl
        · exact absurd he (List.not_mem_nil e)
    · intro e he
      split at he
      · simp at he; subst he; cases storeUp <;> rfl
      · exact absurd he (List.not_mem_nil e)
  · have hs2 : wsShapeOk d = false := by
      revert hs; cases wsShapeOk d <;> simp
    have htr : wsMessage mode rate draw uuid now storeUp redisOn dbNextId d = [] := by
      simp [wsMessage, hs2]
    rw [htr]
    exact eventsBefore_of_noP [] _ _ (fun e he => absurd he (List.not_mem_nil e))

/-- Claim C5 amended: on the HTTP path, when persistence is selected the
queue enqueue is awaited before the broadcast (persistence attempt, then
broadcast — not the other way around); the broadcast always precedes the
HTTP response; the HTTP handler itself performs no primary-store write
(the durable write happens later in the queue consumer, after the
response); and on the socket path the direct store write likewise
precedes the broadcast. -/
theorem persist_then_broadcast_then_respond
    (mode : String) (rate draw : ℚ) (uuid now : String)
    (kafkaUp redisOn : Bool) (r : HttpReq)
    (storeUp : Bool) (dbNextId : Nat) (d : WsMsg) :
    eventsBefore (httpPost mode rate draw uuid now kafkaUp redisOn r)
      isPersistAttemptEv isBroadcastEv ∧
    eventsBefore (httpPost mode rate draw uuid now kafkaUp redisOn r)
      isBroadcastEv isRespondEv ∧
    (∀ e ∈ httpPost mode rate draw uuid now kafkaUp redisOn r,
       isStoreWriteEv e = false) ∧
    eventsBefore (wsMessage mode rate draw uuid now storeUp redisOn dbNextId d)
      isPersistAttemptEv isBroadcastEv := by
  by_cases hv : validReq r = true
  · have htr : httpPost mode rate draw uuid now kafkaUp redisOn r
        = (if shouldPersist mode (forcePersist r) rate draw then
             [if kafkaUp then Ev.enqueue r.videoId (tempOf uuid now r)
              else Ev.enqueueFail r.videoId]
           else [])
          ++ ([Ev.publishRoom r.videoId (BItem.ofTemp (tempOf uuid now r))]
          ++ ((match r.replyToUserId with
               | some u => [Ev.publishUser ("user:" ++ u)
                              (BItem.ofTemp (tempOf uuid now r))]
               | none => [])
          ++ ([Ev.respond (BItem.ofTemp (tempOf uuid now r))]
          ++ (if redisOn then
                [Ev.cacheWriteEv ("chat:" ++ r.scope ++ ":" ++ r.videoId)
                  (BItem.ofTemp (tempOf uuid now r))]
              else [])))) := by
      simp [httpPost, hv, List.append_assoc]
    have htr2 : httpPost mode rate draw uuid now kafkaUp redisOn r
        = ((if shouldPersist mode (forcePersist r) rate draw then
              [if kafkaUp then Ev.enqueue r.videoId (tempOf uuid now r)
               else Ev.enqueueFail r.videoId]
            else [])
           ++ ([Ev.publishRoom r.videoId (BItem.ofTemp (tempOf uuid now r))]
           ++ (match r.replyToUserId with
               | some u => [Ev.publishUser ("user:" ++ u)
                              (BItem.ofTemp (tempOf uuid now r))]
               | none => [])))
          ++ ([Ev.respond (BItem.ofTemp (tempOf uuid now r))]
          ++ (if redisOn then
                [Ev.cacheWriteEv ("chat:" ++ r.scope ++ ":" ++ r.videoId)
                  (BItem.ofTemp (tempOf uuid now r))]
              else [])) := by
      simp [httpPost, hv, List.append_assoc]
    refine ⟨?_, ?_, ?_, ws_persist_before_broadcast _ _ _ _ _ _ _ _ _⟩
    · rw [htr]
      apply eventsBefore_split
      · intro e he
        simp only [List.mem_append, List.mem_singleton] at he
        rcases he with rfl | he | rfl | he
        · rfl
        · cases hru : r.replyToUserId with
          | none => rw [hru] at he; simp at he
          | some u => rw [hru] at he; simp at he; subst he; rfl
        · rfl
        · split at he
          · simp at he; subst he; rfl
          · exact absurd he (List.not_mem_nil e)
      · intro e he
        split at he
        · simp at he; subst he; cases kafkaUp <;> rfl
        · exact absurd he (List.not_mem_nil e)
    · rw [htr2]
      apply eventsBefore_split
      · intro e he
        simp only [List.mem_append, List.mem_singleton] at he
        rcases he with rfl | he
        · rfl
        · split at he
          · simp at he; subst he; rfl
          · exact absurd he (List.not_mem_nil e)
      · intro e he
        simp only [List.mem_append, List.mem_singleton] at he
        rcases he with he | rfl | he
        · split at he
          · simp at he; subst he; cases kafkaUp <;> rfl
          · exact absurd he (List.not_mem_nil e)
        · rfl
        · cases hru : r.replyToUserId with
          | none => rw [hru] at he; simp at he
          | some u => rw [hru] at he; simp at he; subst he; rfl
    · rw [htr]
      intro e he
      simp only [List.mem_append, List.mem_singleton] at he
      rcases he with he | rfl | he | rfl | he
      · split at he
        · simp at he; subst he; cases kafkaUp <;> rfl
        · exact absurd he (List.not_mem_nil e)
      · rfl
      · cases hru : r.replyToUserId with
        | none => rw [hru] at he; simp at he
        | some u => rw [hru] at he; simp at he; subst he; rfl
      · rfl
      · split at he
        · simp at he; subst he; rfl
        · exact absurd he (List.not_mem_nil e)
  · have hv2 : validReq r = false := by
      revert hv; cases validReq r <;> simp
    have htr : httpPost mode rate draw uuid now kafkaUp redisOn r = [Ev.reject] := by
      simp [httpPost, hv2]
    refine ⟨?_, ?_, ?_, ws_persist_before_broadcast _ _ _ _ _ _ _ _ _⟩
    · rw [htr]
      apply eventsBefore_of_noP
      intro e he
      simp at he
      subst he
      rfl
    · rw [htr]
      apply eventsBefore_of_noP
      intro e he
      simp at he
      subst he
      rfl
    · rw [htr]
      intro e he
      simp at he
      subst he
      rfl

/-- Witness for the amended claim C5 at a concrete forced-persist
request: the persistence attempt strictly precedes every broadcast of
the trace, and the first trace event (the enqueue) is not a store
write. -/
theorem persist_then_broadcast_then_respond_witness :
    eventsBefore (httpPost "none" 0 0 "u-1" "t0" true false
        ⟨"v1", "a", "hi", none, none, none, true, "live"⟩)
      isPersistAttemptEv isBroadcastEv ∧
    isStoreWriteEv (Ev.enqueue "v1" (tempOf "u-1" "t0"
        ⟨"v1", "a", "hi", none, none, none, true, "live"⟩)) = false :=
  ⟨(persist_then_broadcast_then_respond "none" 0 0 "u-1" "t0" true false
      ⟨"v1", "a", "hi", none, none, none, true, "live"⟩ true 0
      ⟨"comment", "v1", "a", "hi", none, none, "live"⟩).1,
   (persist_then_broadcast_then_respond "none" 0 0 "u-1" "t0" true false
      ⟨"v1", "a", "hi", none, none, none, true, "live"⟩ true 0
      ⟨"comment", "v1", "a", "hi", none, none, "live"⟩).2.2.1 _ (by decide)⟩

set_option maxRecDepth 4096 in
/-- Claim C9 counterexample: a persist-eligible socket comment (mode
all) is processed — the trace is nonempty — yet no queue enqueue event
occurs anywhere in it: the socket path persists by a direct store write,
bypassing the durable queue. -/
theorem socket_persist_bypasses_queue_cex :
    wsPersistDecision "all" 0 0 = true ∧
    (wsMessage "all" 0 0 "u-1" "t0" true false 3
        ⟨"comment", "v1", "a", "hi", none, none, "live"⟩).all
      (fun e => !isEnqueueEv e) = true ∧
    wsMessage "all" 0 0 "u-1" "t0" true false 3
        ⟨"comment", "v1", "a", "hi", none, none, "live"⟩ ≠ [] := by
  decide

lemma wsMessage_shape (mode : String) (rate draw : ℚ) (uuid now : String)
    (storeUp redisOn : Bool) (dbNextId : Nat) (d : WsMsg)
    (hs : wsShapeOk d = true) :
    ∃ b, wsMessage mode rate draw uuid now storeUp redisOn dbNextId d
      = (if wsPersistDecision mode rate draw then
           [if storeUp then
              Ev.storeCreate d.videoId d.userId (sliceContent d.content 2000)
            else
              Ev.storeCreateFail d.videoId d.userId (sliceContent d.content 2000)]
         else [])
        ++ ([Ev.publishRoom d.videoId b]
        ++ ((match d.replyToUserId with
             | some u => [Ev.publishUser ("user:" ++ u) b]
             | none => [])
        ++ (if redisOn then
              [Ev.cacheWriteEv ("chat:" ++ d.scope ++ ":" ++ d.videoId) b]
            else []))) := by
  refine ⟨if wsPersistDecision mode rate draw && storeUp then
      BItem.ofRow ⟨CommentId.ofDb dbNextId, d.videoId, d.userId,
        sliceContent d.content 2000⟩
    else BItem.ofTemp ⟨uuid, d.videoId, d.userId,
      sliceContent d.content 2000, now, d.replyToId, d.replyToUserId⟩, ?_⟩
  simp [wsMessage, hs, List.append_assoc]

/-- Claim C9 amended: on the HTTP path every persist-eligible comment is
enqueued with its room id (videoId) as the partition key — the enqueue
event is present when the policy selects persistence and the producer is
reachable, and every enqueue event of the trace carries the room id as
its key; the socket path, however, bypasses the queue: a persist-eligible
socket comment is written directly to the primary store and its trace
never contains an enqueue event. -/
theorem enqueue_key_is_room
    (mode : String) (rate draw : ℚ) (uuid now : String)
    (kafkaUp redisOn : Bool) (r : HttpReq)
    (storeUp : Bool) (dbNextId : Nat) (d : WsMsg) :
    (validReq r = true → shouldPersist mode (forcePersist r) rate draw = true →
       kafkaUp = true →
       Ev.enqueue r.videoId (tempOf uuid now r)
         ∈ httpPost mode rate draw uuid now kafkaUp redisOn r) ∧
    (∀ k t, Ev.enqueue k t ∈ httpPost mode rate draw uuid now kafkaUp redisOn r →
       k = r.videoId ∧ t = tempOf uuid now r) ∧
    (wsShapeOk d = true → wsPersistDecision mode rate draw = true →
       storeUp = true →
       Ev.storeCreate d.videoId d.userId (sliceContent d.content 2000)
         ∈ wsMessage mode rate draw uuid now storeUp redisOn dbNextId d) ∧
    (∀ e ∈ wsMessage mode rate draw uuid now storeUp redisOn dbNextId d,
       isEnqueueEv e = false) := by
  refine ⟨?_, ?_, ?_, ?_⟩
  · intro hv hp hk
    subst hk
    simp [httpPost, hv, hp]
  · intro k t he
    by_cases hv : validReq r = true
    · have htr : httpPost mode rate draw uuid now kafkaUp redisOn r
          = (if shouldPersist mode (forcePersist r) rate draw then
               [if kafkaUp then Ev.enqueue r.videoId (tempOf uuid now r)
                else Ev.enqueueFail r.videoId]
             else [])
            ++ ([Ev.publishRoom r.videoId (BItem.ofTemp (tempOf uuid now r))]
            ++ ((match r.replyToUserId with
                 | some u => [Ev.publishUser ("user:" ++ u)
                                (BItem.ofTemp (tempOf uuid now r))]
                 | none => [])
            ++ ([Ev.respond (BItem.ofTemp (tempOf uuid now r))]
            ++ (if redisOn then
                  [Ev.cacheWriteEv ("chat:" ++ r.scope ++ ":" ++ r.videoId)
                    (BItem.ofTemp (tempOf uuid now r))]
                else [])))) := by
        simp [httpPost, hv, List.append_assoc]
      rw [htr] at he
      simp only [List.mem_append, List.mem_singleton] at he
      rcases he with he | heq | he | heq | he
      · split at he
        · simp at he
          split at he
          · exact ⟨(Ev.enqueue.injEq _ _ _ _).mp he |>.1,
              (Ev.enqueue.injEq _ _ _ _).mp he |>.2⟩
          · simp at he
        · exact absurd he (List.not_mem_nil _)
      · simp at heq
      · cases hru : r.replyToUserId with
        | none => rw [hru] at he; simp at he
        | some u => rw [hru] at he; simp at he
      · simp at heq
      · split at he
        · simp at he
        · exact absurd he (List.not_mem_nil _)
    · have hv2 : validReq r = false := by
        revert hv; cases validReq r <;> simp
      simp [httpPost, hv2] at he
  · intro hs hp hsu
    subst hsu
    simp [wsMessage, hs, hp]
  · intro e he
    by_cases hs : wsShapeOk d = true
    · obtain ⟨b, htr⟩ :=
        wsMessage_shape mode rate draw uuid now storeUp redisOn dbNextId d hs
      rw [htr] at he
      simp only [List.mem_append, List.mem_singleton] at he
      rcases he with he | rfl | he | he
      · split at he
        · simp at he; subst he; cases storeUp <;> rfl
        · exact absurd he (List.not_mem_nil e)
      · rfl
      · cases hru : d.replyToUserId with
        | none => rw [hru] at he; simp at he
        | some u => rw [hru] at he; simp at he; subst he; rfl
      · split at he
        · simp at he; subst he; rfl
        · exact absurd he (List.not_mem_nil e)
    · have hs2 : wsShapeOk d = false := by
        revert hs; cases wsShapeOk d <;> simp
      rw [show wsMessage mode rate draw uuid now storeUp redisOn dbNextId d = []
          from by simp [wsMessage, hs2]] at he
      exact absurd he (List.not_mem_nil e)

/-- Witness for the amended claim C9 at concrete inputs: the forced HTTP
request is enqueued with key v1, and the persist-eligible socket comment
produces a direct store write. -/
theorem enqueue_key_is_room_witness :
    Ev.enqueue "v1" (tempOf "u-1" "t0"
        ⟨"v1", "a", "hi", none, none, none, true, "live"⟩)
      ∈ httpPost "none" 0 0 "u-1" "t0" true false
          ⟨"v1", "a", "hi", none, none, none, true, "live"⟩ ∧
    Ev.storeCreate "v1" "a" (sliceContent "hi" 2000)
      ∈ wsMessage "all" 0 0 "u-1" "t0" true false 3
          ⟨"comment", "v1", "a", "hi", none, none, "live"⟩ :=
  ⟨(enqueue_key_is_room "none" 0 0 "u-1" "t0" true false
      ⟨"v1", "a", "hi", none, none, none, true, "live"⟩ true 3
      ⟨"comment", "v1", "a", "hi", none, none, "live"⟩).1
      (by decide) (by decide) rfl,
   (enqueue_key_is_room "all" 0 0 "u-1" "t0" true false
      ⟨"v1", "a", "hi", none, none, none, true, "live"⟩ true 3
      ⟨"comment", "v1", "a", "hi", none, none, "live"⟩).2.2.1
      (by decide) (by decide) rfl⟩

end Yoom
